import Mathlib

/-!
Shallow embedding of the pushdown-automaton engine in `src/src/lib.rs`.

The Rust `Stack<StackData>` wraps a `Vec`; we keep the same element order
(top of the stack is the LAST element of the list), so `push` appends and
`pop` removes the last element.  The Rust `Automata` struct holds the
current state, the stack, the remaining input (`word`, a single-pass
iterator, embedded as the list of symbols not yet consumed) and the
transition relation.  The `Movement` trait's single method `f` is embedded
as a function field `movements : Q → Option V → S → Option (Q × List S)`;
the `Movements` HashMap of the source is embedded as an association list
with `Movements.f` performing the exact-key lookup, matching the
`HashMap::get` call.  Rust's unbounded `while` loop in `complete` is
embedded with an explicit fuel parameter: `complete fuel a = some b` means
the loop reached a terminal verdict within `fuel` iterations and returned `b`.
-/

namespace StackAutomata

/-- Embeds `Stack<StackData>(Vec<StackData>)`: the Vec's order is kept, so
the top of the stack is the last element of `data`. -/
structure Stack (StackData : Type) where
  data : List StackData
deriving DecidableEq

/-- Embeds `Stack::new`. -/
def Stack.new {StackData : Type} (data : List StackData) : Stack StackData :=
  ⟨data⟩

/-- Embeds `Stack::push`: appends `e` as the new top (Vec push at the end). -/
def Stack.push {StackData : Type} (st : Stack StackData) (e : StackData) :
    Stack StackData :=
  ⟨st.data ++ [e]⟩

/-- Embeds `Stack::pop`: removes and returns the last element (the top), or
`none` on the empty stack.  Rust mutates in place; here the popped stack is
returned as the second component. -/
def Stack.pop {StackData : Type} (st : Stack StackData) :
    Option StackData × Stack StackData :=
  (st.data.getLast?, ⟨st.data.dropLast⟩)

/-- Embeds `enum AutomataResult`. -/
inductive AutomataResult : Type where
  | Accept : AutomataResult
  | Processing : AutomataResult
  | NotAccepting : AutomataResult
deriving DecidableEq

/-- Embeds `type Movements<VocabElement, StackData, Q> =
HashMap<(Q, Option<VocabElement>, StackData), (Q, Vec<StackData>)>` as an
association list with exact-key lookup. -/
def Movements (VocabElement StackData Q : Type) : Type :=
  List ((Q × Option VocabElement × StackData) × (Q × List StackData))

/-- Embeds the `Movement` impl for `Movements`: `self.get(&(state, v, s))`. -/
def Movements.f {VocabElement StackData Q : Type}
    [DecidableEq Q] [DecidableEq VocabElement] [DecidableEq StackData]
    (m : Movements VocabElement StackData Q)
    (state : Q) (v : Option VocabElement) (s : StackData) :
    Option (Q × List StackData) :=
  List.lookup (state, v, s) m

/-- Embeds `struct AutomataBuilder<StackData, Q, M>`.  The generic `M`
(anything implementing `Movement`) is embedded by its only capability,
the lookup function `f`. -/
structure AutomataBuilder (VocabElement StackData Q : Type) where
  state : Q
  stack : Stack StackData
  movements : Q → Option VocabElement → StackData → Option (Q × List StackData)

/-- Embeds `struct Automata<VocabElement, StackData, Q, Word, M>`.  `word`
is the remaining part of the single-pass input iterator. -/
structure Automata (VocabElement StackData Q : Type) where
  state : Q
  stack : Stack StackData
  word : List VocabElement
  movements : Q → Option VocabElement → StackData → Option (Q × List StackData)

/-- Embeds `AutomataBuilder::build`: clones the builder's state and stack
into a fresh runner over the given input. -/
def AutomataBuilder.build {VocabElement StackData Q : Type}
    (b : AutomataBuilder VocabElement StackData Q)
    (word : List VocabElement) : Automata VocabElement StackData Q :=
  { state := b.state, stack := b.stack, word := word, movements := b.movements }

/-- Embeds `Automata::run`.  `self.word.next()` becomes taking `head?` and
continuing with `tail`; `self.stack.pop()` is `Stack.pop`; the
`for elem in new_stack.iter().rev() { self.stack.push(elem.clone()) }`
loop is a left fold of `Stack.push` over the reversed replacement list.
Rust mutates `self`; here the updated runner is returned alongside the
verdict. -/
def Automata.run {VocabElement StackData Q : Type}
    (a : Automata VocabElement StackData Q) :
    Automata VocabElement StackData Q × AutomataResult :=
  let v := a.word.head?
  let word := a.word.tail
  let p := a.stack.pop
  let stack := p.2
  match v, p.1 with
  | none, none =>
      ({ a with word := word, stack := stack }, AutomataResult.Accept)
  | v, some s =>
      match a.movements a.state v s with
      | some (state, new_stack) =>
          ({ a with state := state, word := word,
                    stack := new_stack.reverse.foldl Stack.push stack },
           AutomataResult.Processing)
      | none =>
          ({ a with word := word, stack := stack }, AutomataResult.NotAccepting)
  | some _, none =>
      ({ a with word := word, stack := stack }, AutomataResult.NotAccepting)

/-- Embeds `Automata::complete`: run `run` while the verdict is
`Processing`, then return whether the terminal verdict is `Accept`.  The
Rust loop is unbounded; `fuel` bounds the number of iterations modelled,
and a `some` result is the verdict the loop actually returns. -/
def Automata.complete {VocabElement StackData Q : Type} :
    Nat → Automata VocabElement StackData Q → Option Bool
  | 0, _ => none
  | Nat.succ n, a =>
      let p := a.run
      if p.2 = AutomataResult.Processing then Automata.complete n p.1
      else some (decide (p.2 = AutomataResult.Accept))

/-- `stepsP k a = some a'` iff the first `k` calls to `run` starting from
`a` all return `Processing` and leave the runner in configuration `a'`. -/
def Automata.stepsP {VocabElement StackData Q : Type} :
    Nat → Automata VocabElement StackData Q →
    Option (Automata VocabElement StackData Q)
  | 0, a => some a
  | Nat.succ n, a =>
      let p := a.run
      if p.2 = AutomataResult.Processing then Automata.stepsP n p.1 else none

/-! ### The `aⁿbⁿ (n ≥ 1)` example automaton (test `test_an_bn_n_ge_1_v1`) -/

/-- Embeds `enum State { Q0, Q1 }` of the V1 test. -/
inductive StateAB : Type where
  | Q0 : StateAB
  | Q1 : StateAB
deriving DecidableEq

/-- Embeds `enum StackElement { A0, A }` of the V1 test (`A0` is the
bottom-of-stack marker the spec calls `Bottom`). -/
inductive StackAB : Type where
  | A0 : StackAB
  | A : StackAB
deriving DecidableEq

/-- Embeds `enum Vocab { a, b }` of the V1 test. -/
inductive VocabAB : Type where
  | a : VocabAB
  | b : VocabAB
deriving DecidableEq

/-- The V1 ruleset: `(Q0,a,A0)→(Q0,[A])`, `(Q0,a,A)→(Q0,[A,A])`,
`(Q0,b,A)→(Q1,[])`, `(Q1,b,A)→(Q1,[])`. -/
def anbnRules : Movements VocabAB StackAB StateAB :=
  [ ((StateAB.Q0, some VocabAB.a, StackAB.A0), (StateAB.Q0, [StackAB.A])),
    ((StateAB.Q0, some VocabAB.a, StackAB.A), (StateAB.Q0, [StackAB.A, StackAB.A])),
    ((StateAB.Q0, some VocabAB.b, StackAB.A), (StateAB.Q1, [])),
    ((StateAB.Q1, some VocabAB.b, StackAB.A), (StateAB.Q1, [])) ]

/-- Embeds `AutomataBuilder::new(Q0, vec![A0], ruleset)` of the V1 test. -/
def anbnBuilder : AutomataBuilder VocabAB StackAB StateAB :=
  { state := StateAB.Q0, stack := Stack.new [StackAB.A0],
    movements := anbnRules.f }

/-! ### Helper lemmas about `run`, `complete` and `stepsP` -/

theorem Stack.pop_concat {S : Type} (rest : List S) (s : S) :
    Stack.pop ⟨rest ++ [s]⟩ = (some s, ⟨rest⟩) := by
  simp [Stack.pop, List.getLast?_concat, List.dropLast_concat]

theorem Stack.foldl_push_data {S : Type} (l : List S) (st : Stack S) :
    (l.foldl Stack.push st).data = st.data ++ l := by
  induction l generalizing st with
  | nil => simp
  | cons x xs ih => simp [List.foldl_cons, ih, Stack.push]

/-- On an exhausted input and an empty stack, `run` returns `Accept` and
leaves the runner unchanged. -/
theorem run_empty_empty {V S Q : Type} (a : Automata V S Q)
    (hw : a.word = []) (hs : a.stack.data = []) :
    a.run = (a, AutomataResult.Accept) := by
  obtain ⟨q, ⟨d⟩, w, m⟩ := a
  simp only at hw hs
  subst hw hs
  rfl

/-- `run` returns `Accept` exactly when both the input and the stack are
exhausted at the call. -/
theorem run_accept_iff {V S Q : Type} (a : Automata V S Q) :
    (a.run).2 = AutomataResult.Accept ↔ a.word = [] ∧ a.stack.data = [] := by
  obtain ⟨q, ⟨d⟩, w, m⟩ := a
  rcases List.eq_nil_or_concat d with hd | ⟨rest, s, hd⟩ <;> subst hd
  · cases w with
    | nil => simp [Automata.run, Stack.pop]
    | cons x xs => simp [Automata.run, Stack.pop]
  · cases w with
    | nil =>
      rcases hm : m q none s with _ | p <;>
        simp [Automata.run, Stack.pop, List.concat_eq_append,
          List.getLast?_concat, List.dropLast_concat, hm]
    | cons x xs =>
      rcases hm : m q (some x) s with _ | p <;>
        simp [Automata.run, Stack.pop, List.concat_eq_append,
          List.getLast?_concat, List.dropLast_concat, hm]

theorem Stack.foldl_push {S : Type} (l : List S) (st : Stack S) :
    l.foldl Stack.push st = ⟨st.data ++ l⟩ := by
  induction l generalizing st with
  | nil => simp
  | cons x xs ih => simp [List.foldl_cons, ih, Stack.push]

theorem Stack.foldr_push {S : Type} (seq : List S) (st : Stack S) :
    seq.foldr (fun x st => st.push x) st = ⟨st.data ++ seq.reverse⟩ := by
  induction seq with
  | nil => simp
  | cons x xs ih =>
    rw [List.foldr_cons, ih]
    simp [Stack.push, List.reverse_cons, List.append_assoc]

/-- A `run` step whose relation lookup succeeds: the state moves to the
entry's next state, the replacement list is pushed reversed on the popped
stack, one input symbol is consumed, and the verdict is `Processing`. -/
theorem run_found {V S Q : Type} (a : Automata V S Q)
    (rest : List S) (s : S) (q' : Q) (seq : List S)
    (hstack : a.stack.data = rest ++ [s])
    (hm : a.movements a.state a.word.head? s = some (q', seq)) :
    a.run = ({ state := q', stack := ⟨rest ++ seq.reverse⟩,
               word := a.word.tail, movements := a.movements },
             AutomataResult.Processing) := by
  obtain ⟨q, ⟨d⟩, w, m⟩ := a
  simp only at hstack hm ⊢
  subst hstack
  cases w with
  | nil =>
    simp only [List.head?_nil] at hm
    simp [Automata.run, Stack.pop, List.getLast?_concat,
      List.dropLast_concat, hm, Stack.foldl_push, Stack.foldr_push]
  | cons x xs =>
    simp only [List.head?_cons] at hm
    simp [Automata.run, Stack.pop, List.getLast?_concat,
      List.dropLast_concat, hm, Stack.foldl_push, Stack.foldr_push]

/-- A `run` step whose relation lookup fails while the stack still had a
top: the verdict is `NotAccepting`, the state is kept, the stack merely
lost its top, and one input symbol was consumed. -/
theorem run_not_found {V S Q : Type} (a : Automata V S Q)
    (rest : List S) (s : S)
    (hstack : a.stack.data = rest ++ [s])
    (hm : a.movements a.state a.word.head? s = none) :
    a.run = ({ a with stack := ⟨rest⟩, word := a.word.tail },
             AutomataResult.NotAccepting) := by
  obtain ⟨q, ⟨d⟩, w, m⟩ := a
  simp only at hstack hm ⊢
  subst hstack
  cases w with
  | nil =>
    simp only [List.head?_nil] at hm
    simp [Automata.run, Stack.pop, List.getLast?_concat,
      List.dropLast_concat, hm]
  | cons x xs =>
    simp only [List.head?_cons] at hm
    simp [Automata.run, Stack.pop, List.getLast?_concat,
      List.dropLast_concat, hm]

/-- A `run` step with remaining input but an exhausted stack: the verdict
is `NotAccepting` and the input symbol was still consumed. -/
theorem run_input_empty_stack {V S Q : Type} (a : Automata V S Q)
    (x : V) (xs : List V)
    (hw : a.word = x :: xs) (hs : a.stack.data = []) :
    a.run = ({ a with word := xs }, AutomataResult.NotAccepting) := by
  obtain ⟨q, ⟨d⟩, w, m⟩ := a
  simp only at hw hs ⊢
  subst hw hs
  rfl

/-- `complete fuel a = some b` means the `while Processing` loop of
`Automata::complete` terminated; `b = true` exactly when some finite
sequence of `Processing` steps reaches a configuration with both the
input and the stack empty. -/
theorem complete_iff_reach {V S Q : Type} :
    ∀ (n : Nat) (a : Automata V S Q) (b : Bool),
      a.complete n = some b →
      (b = true ↔
        ∃ k a', a.stepsP k = some a' ∧ a'.word = [] ∧ a'.stack.data = []) := by
  intro n
  induction n with
  | zero =>
    intro a b h
    simp [Automata.complete] at h
  | succ n ih =>
    intro a b h
    simp only [Automata.complete] at h
    by_cases hp : (a.run).2 = AutomataResult.Processing
    · rw [if_pos hp] at h
      have hiff := ih (a.run).1 b h
      constructor
      · intro hb
        obtain ⟨k, a', hk, hw', hs'⟩ := hiff.mp hb
        refine ⟨k + 1, a', ?_, hw', hs'⟩
        simp only [Automata.stepsP]
        rw [if_pos hp]
        exact hk
      · rintro ⟨k, a', hk, hw', hs'⟩
        apply hiff.mpr
        cases k with
        | zero =>
          simp only [Automata.stepsP, Option.some.injEq] at hk
          subst hk
          rw [run_empty_empty _ hw' hs'] at hp
          exact absurd hp (by simp)
        | succ k =>
          refine ⟨k, a', ?_, hw', hs'⟩
          simp only [Automata.stepsP] at hk
          rw [if_pos hp] at hk
          exact hk
    · rw [if_neg hp] at h
      have hb : b = decide ((a.run).2 = AutomataResult.Accept) :=
        (Option.some.injEq _ _ ▸ h).symm
      rcases hr : (a.run).2 with _ | _ | _
      · have hacc := (run_accept_iff a).mp hr
        constructor
        · intro _
          exact ⟨0, a, rfl, hacc.1, hacc.2⟩
        · intro _
          simp [hb, hr]
      · exact absurd hr hp
      · constructor
        · intro hbt
          rw [hb, hr] at hbt
          simp at hbt
        · rintro ⟨k, a', hk, hw', hs'⟩
          cases k with
          | zero =>
            simp only [Automata.stepsP, Option.some.injEq] at hk
            subst hk
            rw [run_empty_empty _ hw' hs'] at hr
            simp at hr
          | succ k =>
            simp only [Automata.stepsP] at hk
            rw [if_neg hp] at hk
            exact absurd hk (by simp)

/-! ### Concrete configurations used by counterexamples and witnesses -/

/-- A runner holding stack `[true]` (top `true`), one remaining input
symbol, and a relation whose every entry replaces the top with the
two-element sequence `[true, false]`.  Exercises the push-order of `run`. -/
def pushOrderCfg : Automata Unit Bool Unit :=
  { state := (), stack := Stack.new [true], word := [()],
    movements := fun _ _ _ => some ((), [true, false]) }

/-- A runner with exhausted input, a single stack symbol and an empty
relation: its first `run` is stuck (`NotAccepting`) but pops the top, so a
second `run` sees both input and stack empty. -/
def rerunCfg : Automata Unit Unit Unit :=
  { state := (), stack := Stack.new [()], word := [],
    movements := fun _ _ _ => none }

/-! ### Claim theorems -/

/-- C1: a single `run()` call returns `Accept` iff, at that call, the
input yields no next symbol and the stack pop yields no symbol; in
particular a runner built from an empty initial stack over an empty input
returns `Accept` on the first `run()`. -/
theorem c1_accept_iff_both_exhausted {V S Q : Type} :
    (∀ a : Automata V S Q,
      (a.run).2 = AutomataResult.Accept ↔ a.word = [] ∧ a.stack.data = []) ∧
    (∀ (q : Q) (m : Q → Option V → S → Option (Q × List S)),
      (((AutomataBuilder.mk q (Stack.new []) m).build []).run).2 =
        AutomataResult.Accept) :=
  ⟨run_accept_iff,
   fun q m => (run_accept_iff ((AutomataBuilder.mk q (Stack.new []) m).build [])).mpr ⟨rfl, rfl⟩⟩

/-- C2: the `aⁿbⁿ (n ≥ 1)` automaton of the V1 test accepts `ab`, `aabb`
and `aaabbb` and rejects `a`, `b` and the empty input (`complete` with
fuel 20, ample for these runs, returns the loop's verdict). -/
theorem c2_anbn_scenarios :
    (anbnBuilder.build [VocabAB.a, VocabAB.b]).complete 20 = some true ∧
    (anbnBuilder.build [VocabAB.a, VocabAB.a, VocabAB.b, VocabAB.b]).complete 20 = some true ∧
    (anbnBuilder.build [VocabAB.a, VocabAB.a, VocabAB.a, VocabAB.b, VocabAB.b, VocabAB.b]).complete 20 = some true ∧
    (anbnBuilder.build [VocabAB.a]).complete 20 = some false ∧
    (anbnBuilder.build [VocabAB.b]).complete 20 = some false ∧
    (anbnBuilder.build []).complete 20 = some false := by
  decide

/-- C3: when the pop yields a top `s` and the relation has an entry at
(current state, peeked input, `s`), `run()` moves to the entry's next
state, pushes the replacement sequence in reverse order (so its first
symbol is the new top after all pushes) and returns `Processing`. -/
theorem c3_found_transition {V S Q : Type} (a : Automata V S Q)
    (rest : List S) (s : S) (q' : Q) (seq : List S)
    (hstack : a.stack.data = rest ++ [s])
    (hm : a.movements a.state a.word.head? s = some (q', seq)) :
    (a.run).2 = AutomataResult.Processing ∧
    (a.run).1.state = q' ∧
    (a.run).1.stack.data = rest ++ seq.reverse ∧
    (seq ≠ [] → (a.run).1.stack.data.getLast? = seq.head?) := by
  rw [run_found a rest s q' seq hstack hm]
  refine ⟨rfl, rfl, rfl, ?_⟩
  intro hne
  rcases seq with _ | ⟨x, xs⟩
  · exact absurd rfl hne
  · simp [List.reverse_cons, ← List.append_assoc, List.getLast?_concat]

/-- Witness for C3 on the `aⁿbⁿ` automaton over input `ab`: the rule
`(Q0, a, A0) → (Q0, [A])` fires. -/
theorem c3_found_transition_witness :
    (anbnBuilder.build [VocabAB.a, VocabAB.b]).stack.data = [] ++ [StackAB.A0] ∧
    (anbnBuilder.build [VocabAB.a, VocabAB.b]).movements
      (anbnBuilder.build [VocabAB.a, VocabAB.b]).state
      (anbnBuilder.build [VocabAB.a, VocabAB.b]).word.head? StackAB.A0 =
      some (StateAB.Q0, [StackAB.A]) ∧
    (((anbnBuilder.build [VocabAB.a, VocabAB.b]).run).2 = AutomataResult.Processing ∧
     ((anbnBuilder.build [VocabAB.a, VocabAB.b]).run).1.state = StateAB.Q0 ∧
     ((anbnBuilder.build [VocabAB.a, VocabAB.b]).run).1.stack.data =
       [] ++ [StackAB.A].reverse ∧
     ([StackAB.A] ≠ [] →
       ((anbnBuilder.build [VocabAB.a, VocabAB.b]).run).1.stack.data.getLast? =
         [StackAB.A].head?)) :=
  ⟨by decide, by decide,
   c3_found_transition (anbnBuilder.build [VocabAB.a, VocabAB.b])
     [] StackAB.A0 StateAB.Q0 [StackAB.A] (by decide) (by decide)⟩

/-- C4 counterexample: the claim says the replacement sequence's first
element ends up deepest.  In `pushOrderCfg` the fired entry's replacement
sequence is `[true, false]`; after the step the stack (bottom first) is
`[false, true]`: the first element `true` is the TOP, not the deepest, so
the stack is not the `[true, false]` the claim predicts. -/
theorem c4_push_order_counterexample :
    (pushOrderCfg.run).2 = AutomataResult.Processing ∧
    (pushOrderCfg.run).1.stack.data = [false, true] ∧
    ¬ (pushOrderCfg.run).1.stack.data = [true, false] := by
  decide

/-- C4 (amended): after a successful transition step the replacement
sequence is pushed in REVERSE order: the stack above the popped position
is the reversed sequence, so the first element ends up topmost (the last
element deepest). -/
theorem c4_push_order_amended {V S Q : Type} (a : Automata V S Q)
    (rest : List S) (s : S) (q' : Q) (seq : List S)
    (hstack : a.stack.data = rest ++ [s])
    (hm : a.movements a.state a.word.head? s = some (q', seq)) :
    (a.run).1.stack.data = rest ++ seq.reverse := by
  rw [run_found a rest s q' seq hstack hm]

/-- Witness for the amended C4 on `pushOrderCfg`: replacement
`[true, false]` lands as `[false, true]` (first element on top). -/
theorem c4_push_order_amended_witness :
    pushOrderCfg.stack.data = [] ++ [true] ∧
    pushOrderCfg.movements pushOrderCfg.state pushOrderCfg.word.head? true =
      some ((), [true, false]) ∧
    (pushOrderCfg.run).1.stack.data = [] ++ [true, false].reverse :=
  ⟨by decide, by decide,
   c4_push_order_amended pushOrderCfg [] true () [true, false]
     (by decide) (by decide)⟩

/-- C5: when the pop yields a top symbol but the relation has no entry at
(current state, peeked input, top), `run()` returns `NotAccepting`, the
current state is unchanged, and the stack differs from before only by the
removal of its top symbol. -/
theorem c5_stuck_pops_only {V S Q : Type} (a : Automata V S Q)
    (rest : List S) (s : S)
    (hstack : a.stack.data = rest ++ [s])
    (hm : a.movements a.state a.word.head? s = none) :
    (a.run).2 = AutomataResult.NotAccepting ∧
    (a.run).1.state = a.state ∧
    (a.run).1.stack.data = rest := by
  rw [run_not_found a rest s hstack hm]
  exact ⟨rfl, rfl, rfl⟩

/-- Witness for C5 on the `aⁿbⁿ` automaton over input `b`: no rule for
`(Q0, b, A0)`. -/
theorem c5_stuck_pops_only_witness :
    (anbnBuilder.build [VocabAB.b]).stack.data = [] ++ [StackAB.A0] ∧
    (anbnBuilder.build [VocabAB.b]).movements
      (anbnBuilder.build [VocabAB.b]).state
      (anbnBuilder.build [VocabAB.b]).word.head? StackAB.A0 = none ∧
    (((anbnBuilder.build [VocabAB.b]).run).2 = AutomataResult.NotAccepting ∧
     ((anbnBuilder.build [VocabAB.b]).run).1.state =
       (anbnBuilder.build [VocabAB.b]).state ∧
     ((anbnBuilder.build [VocabAB.b]).run).1.stack.data = []) :=
  ⟨by decide, by decide,
   c5_stuck_pops_only (anbnBuilder.build [VocabAB.b]) [] StackAB.A0
     (by decide) (by decide)⟩

/-- C6: whenever the `while Processing` loop of `complete` terminates
(some fuel returns a verdict), the verdict is `true` iff some finite
sequence of `Processing` steps reaches a configuration where the input
and the stack are simultaneously empty. -/
theorem c6_complete_iff_exhaustion {V S Q : Type}
    (n : Nat) (a : Automata V S Q) (b : Bool)
    (h : a.complete n = some b) :
    (b = true ↔
      ∃ k a', a.stepsP k = some a' ∧ a'.word = [] ∧ a'.stack.data = []) :=
  complete_iff_reach n a b h

/-- Witness for C6 on the `aⁿbⁿ` automaton over input `ab`. -/
theorem c6_complete_iff_exhaustion_witness :
    (anbnBuilder.build [VocabAB.a, VocabAB.b]).complete 20 = some true ∧
    ((true = true) ↔
      ∃ k a', (anbnBuilder.build [VocabAB.a, VocabAB.b]).stepsP k = some a' ∧
        a'.word = [] ∧ a'.stack.data = []) :=
  ⟨by decide,
   c6_complete_iff_exhaustion 20 (anbnBuilder.build [VocabAB.a, VocabAB.b])
     true (by decide)⟩

/-- C7: every `run()` call advances the input cursor by exactly one symbol
when input remains (the remaining input becomes its tail, in every branch:
lookup hit, lookup miss, or empty stack) and by none when the input is
exhausted; the consumed symbol is never re-peekable. -/
theorem c7_cursor_always_advances {V S Q : Type} (a : Automata V S Q) :
    (a.run).1.word = a.word.tail := by
  obtain ⟨q, ⟨d⟩, w, m⟩ := a
  rcases List.eq_nil_or_concat d with hd | ⟨rest, s, hd⟩ <;> subst hd
  · cases w with
    | nil => simp [Automata.run, Stack.pop]
    | cons x xs => simp [Automata.run, Stack.pop]
  · cases w with
    | nil =>
      rcases hm : m q none s with _ | p <;>
        simp [Automata.run, Stack.pop, List.concat_eq_append,
          List.getLast?_concat, List.dropLast_concat, hm]
    | cons x xs =>
      rcases hm : m q (some x) s with _ | p <;>
        simp [Automata.run, Stack.pop, List.concat_eq_append,
          List.getLast?_concat, List.dropLast_concat, hm]

/-- C8: the verdict of `build(input).complete()` depends only on the
builder's configuration (state, stack, relation) and the input — two
runners built from equally-configured builders over the same input get
the same verdict, so no hidden shared mutable state can leak between
independent runners. -/
theorem c8_deterministic {V S Q : Type}
    (b1 b2 : AutomataBuilder V S Q) (w : List V) (n : Nat)
    (hq : b1.state = b2.state) (hs : b1.stack = b2.stack)
    (hm : b1.movements = b2.movements) :
    (b1.build w).complete n = (b2.build w).complete n := by
  obtain ⟨q1, s1, m1⟩ := b1
  obtain ⟨q2, s2, m2⟩ := b2
  simp only at hq hs hm
  subst hq hs hm
  rfl

/-- Witness for C8: two runners from the `aⁿbⁿ` builder over input `a`. -/
theorem c8_deterministic_witness :
    anbnBuilder.state = anbnBuilder.state ∧
    anbnBuilder.stack = anbnBuilder.stack ∧
    anbnBuilder.movements = anbnBuilder.movements ∧
    (anbnBuilder.build [VocabAB.a]).complete 20 =
      (anbnBuilder.build [VocabAB.a]).complete 20 :=
  ⟨rfl, rfl, rfl,
   c8_deterministic anbnBuilder anbnBuilder [VocabAB.a] 20 rfl rfl rfl⟩

/-- C9: `build(input)` yields a runner whose state is the builder's
initial state, whose stack is a copy of the builder's initial stack, and
whose cursor wraps the given input; in this pure embedding (matching the
`clone()` calls in the source) runners are independent values, so
stepping one cannot mutate the builder or another runner. -/
theorem c9_build_fresh {V S Q : Type}
    (b : AutomataBuilder V S Q) (w : List V) :
    (b.build w).state = b.state ∧
    (b.build w).stack = b.stack ∧
    (b.build w).word = w ∧
    (b.build w).movements = b.movements :=
  ⟨rfl, rfl, rfl, rfl⟩

/-- C10: `run()` after a terminal verdict is not idempotent: on `rerunCfg`
(input exhausted, one stack symbol, no matching rule) the first `run()`
returns `NotAccepting` but pops the top, so the immediately following
`run()` returns `Accept`. -/
theorem c10_rerun_not_idempotent :
    ((rerunCfg.run).2 = AutomataResult.NotAccepting) ∧
    (((rerunCfg.run).1.run).2 = AutomataResult.Accept) := by
  decide

end StackAutomata
